import Mathlib

/-!
Verification of the neatworks rendezvous/transport framework.

The development shallowly embeds the Rust sources:
- `src/murmesh-barrier/src/lib.rs` (rendezvous Service),
- `src/neat-core/src/message.rs` (envelope lift adapters),
- `src/neat-core/src/app.rs` (Inspect adapter),
- `src/neat-tokio/src/tcp.rs` (framed link driver loop).

Stateful Rust values become explicit state passing; panics become an
explicit result constructor; the asynchronous select loop becomes an
executable interpreter over an explicit schedule of branch completions.
-/

/-- A network socket address, `std::net::SocketAddr`: IP portion plus port.
IP addresses are modelled as naturals. -/
structure SocketAddr where
  ip : Nat
  port : Nat
  deriving DecidableEq, Repr

/-- `std::net::IpAddr`, the IP portion of a socket address. -/
abbrev IpAddr := Nat

namespace Barrier

/-- `murmesh_barrier::Message<M> = Vec<(M, IpAddr)>`: the aggregate
broadcast by the rendezvous service. -/
abbrev Message (M : Type) := List (M × IpAddr)

/-- The rendezvous `Service` state: the accumulated map from participant
address to contributed message, and the configured quorum `count`.
The `HashMap` is modelled as an association list; the source iterates
the map in an unspecified order, and this embedding fixes that order to
insertion order, one behaviour the source permits. The egress and
finished handlers are external; their invocations are returned as data. -/
structure Service (M : Type) where
  accumulated : List (SocketAddr × M)
  count : Nat
  deriving DecidableEq, Repr

/-- `Service::new`: fresh service with empty accumulation. -/
def Service.new (M : Type) (count : Nat) : Service M :=
  { accumulated := [], count := count }

/-- `HashMap::insert` on the association-list model: replaces the value
at an existing key in place, otherwise appends; returns the new list
together with the previous value at the key. -/
def insertAcc {M : Type} (acc : List (SocketAddr × M)) (a : SocketAddr) (m : M) :
    List (SocketAddr × M) × Option M :=
  match acc with
  | [] => ([(a, m)], none)
  | (b, m₀) :: rest =>
    if b = a then ((b, m) :: rest, some m₀)
    else
      let r := insertAcc rest a m
      ((b, m₀) :: r.1, r.2)

/-- `HashMap::get` on the association-list model. -/
def lookupAcc {M : Type} (acc : List (SocketAddr × M)) (a : SocketAddr) : Option M :=
  match acc with
  | [] => none
  | (b, m₀) :: rest => if b = a then some m₀ else lookupAcc rest a

/-- The aggregate the service builds at quorum:
`Vec::from_iter(accumulated.iter().map(|(addr, message)| (message.clone(), addr.ip())))`. -/
def aggregateOf {M : Type} (acc : List (SocketAddr × M)) : Message M :=
  acc.map fun p => (p.2, p.1.ip)

/-- Result of one `Service::update` call. `panicked` is a failed
`assert!`, carrying the state as mutated up to the failure point;
`ok` carries the new state, the sequence of egress handler invocations
(destination address and aggregate, in order), and whether the finished
handler was invoked (in the source the egress calls precede the
finished call). -/
inductive UpdateResult (M : Type) where
  | panicked (s : Service M)
  | ok (s : Service M) (egress : List (SocketAddr × Message M)) (finished : Bool)
  deriving DecidableEq, Repr

/-- Whether the update hit a failed assertion. -/
def UpdateResult.isPanic {M : Type} : UpdateResult M → Bool
  | .panicked _ => true
  | .ok _ _ _ => false

/-- `Service::update` from `src/murmesh-barrier/src/lib.rs`:
assert `accumulated.len() < count`; insert the contribution; assert the
address had no previous contribution; if the accumulated size now equals
`count`, build the aggregate and deliver it to the egress handler once per
accumulated address, then invoke the finished handler. -/
def Service.update {M : Type} (s : Service M) (message : SocketAddr × M) :
    UpdateResult M :=
  if s.accumulated.length < s.count then
    let remote := message.1
    let r := insertAcc s.accumulated remote message.2
    if r.2.isSome then .panicked { s with accumulated := r.1 }
    else
      let s1 : Service M := { s with accumulated := r.1 }
      if r.1.length = s.count then
        let aggregate := aggregateOf r.1
        .ok s1 (r.1.map fun p => (p.1, aggregate)) true
      else .ok s1 [] false
  else .panicked s

/-- Run the service over a list of contributions, recording each call's
effects (egress invocations and finished flag); `none` when a call
hits a failed assertion. -/
def runService {M : Type} (s : Service M) :
    List (SocketAddr × M) →
      Option (Service M × List (List (SocketAddr × Message M) × Bool))
  | [] => some (s, [])
  | msg :: rest =>
    match s.update msg with
    | .panicked _ => none
    | .ok s1 eg fin =>
      match runService s1 rest with
      | none => none
      | some (sf, effs) => some (sf, (eg, fin) :: effs)

/-- The aggregate delivered at quorum on a run from a fresh service with
quorum `n`: the aggregate carried by the first egress invocation of the
last call, when the run completes without assertion failure. -/
def finalAggregate {M : Type} (n : Nat) (l : List (SocketAddr × M)) :
    Option (Message M) :=
  match runService (Service.new M n) l with
  | some (_, effs) =>
    match effs.getLast? with
    | some (eg, _) => eg.head?.map Prod.snd
    | none => none
  | none => none

end Barrier

/-!
Envelope lift adapters from `src/neat-core/src/message.rs` and the
`Inspect` adapter from `src/neat-core/src/app.rs`.

A `FunctionalState` (Processor) with state type `σ`, input `M` and output
`N` is embedded as `σ → M → σ × N`; a `State` (Handler) as `σ → M → σ`.
Each `Lift` implementor becomes a function from the inner processor and
its state to the lifted processor.
-/

/-- `OptionLift`: `message.map(|message| state.update(message))` — the
inner processor runs only when the optional value is present. -/
def OptionLift.update {σ M N : Type} (state : σ → M → σ × N) (s : σ) :
    Option M → σ × Option N
  | none => (s, none)
  | some m =>
    let p := state s m
    (p.1, some p.2)

/-- `message::Timeout<T>`: Set / Reset / Unset, carrying a timeout value. -/
inductive Timeout (T : Type) where
  | Set (t : T)
  | Reset (t : T)
  | Unset (t : T)
  deriving DecidableEq, Repr

/-- The variant tag of a timeout message, with the payload erased. -/
def Timeout.tag {T : Type} : Timeout T → Timeout Unit
  | .Set _ => .Set ()
  | .Reset _ => .Reset ()
  | .Unset _ => .Unset ()

/-- `TimeoutLift`: runs the inner processor on the payload and rebuilds
the same variant around its output. -/
def TimeoutLift.update {σ M N : Type} (state : σ → M → σ × N) (s : σ) :
    Timeout M → σ × Timeout N
  | .Set m =>
    let p := state s m
    (p.1, .Set p.2)
  | .Reset m =>
    let p := state s m
    (p.1, .Reset p.2)
  | .Unset m =>
    let p := state s m
    (p.1, .Unset p.2)

/-- `message::Transport<T> = (SocketAddr, T)`. `TransportLift` destructures
the pair, runs the inner processor on the payload and re-attaches the
address unchanged. -/
def TransportLift.update {σ M N : Type} (state : σ → M → σ × N) (s : σ)
    (message : SocketAddr × M) : σ × (SocketAddr × N) :=
  let p := state s message.2
  (p.1, (message.1, p.2))

/-- Modelled from the spec: `route::Message<K, M>` (the `Route` routing
tag) is not under `src/`; §3 of the spec describes it as the union of
`To(destination-key, payload)` and `ToAll(payload)`, matching the two
match arms of `RouteLift` in `src/neat-core/src/message.rs`. -/
inductive Route (K M : Type) where
  | To (k : K) (m : M)
  | ToAll (m : M)
  deriving DecidableEq, Repr

/-- The destination key of a routing tag: `some` on the `To` branch,
`none` on `ToAll`. -/
def Route.key {K M : Type} : Route K M → Option K
  | .To k _ => some k
  | .ToAll _ => none

/-- `RouteLift`: runs the inner processor on the payload; `To` keeps its
destination key, `ToAll` stays `ToAll`. -/
def RouteLift.update {σ K M N : Type} (state : σ → M → σ × N) (s : σ) :
    Route K M → σ × Route K N
  | .To dest m =>
    let p := state s m
    (p.1, .To dest p.2)
  | .ToAll m =>
    let p := state s m
    (p.1, .ToAll p.2)

/-- `app::Inspect<S>`: wraps a handler as a processor; its update feeds a
clone of the input to the wrapped handler and returns the input itself.
A clone of a value is the value itself in this embedding. -/
def Inspect.update {σ M : Type} (handler : σ → M → σ) (s : σ) (input : M) :
    σ × M :=
  (handler s input, input)

/-- The identity inner processor. -/
def idState {σ M : Type} : σ → M → σ × M := fun s m => (s, m)

/-- Instrumentation (not from the source): wraps a processor so that the
state also counts how many times the processor has been invoked. -/
def counted {σ M N : Type} (f : σ → M → σ × N) : (σ × Nat) → M → (σ × Nat) × N :=
  fun sk m => (((f sk.1 m).1, sk.2 + 1), (f sk.1 m).2)

/-- Instrumentation (not from the source): wraps a handler so that the
state also records the list of messages the handler has received. -/
def recording {σ M : Type} (h : σ → M → σ) : (σ × List M) → M → σ × List M :=
  fun sl m => (h sl.1 m, sl.2 ++ [m])

/-!
The framed link driver loop, `GeneralConnection::start` in
`src/neat-tokio/src/tcp.rs`.

The loop selects between a read branch (read a 4-byte length, then that
many payload bytes into a fixed 65536-byte buffer, deliver the slice to
the downstream handler) and, while not locally closing, a write branch
(pull from the mailbox bridge; end-of-stream sets the local-close flag;
otherwise write length, bytes and flush). Any read or write error breaks
the loop, after which the disconnect notifier receives the remote address.

The embedding interprets the loop over explicit data: a schedule of which
branch completes at each iteration (`true` = read branch; the guard forces
the read branch while locally closing), the sequence of inbound stream
events, and the mailbox contents (each outgoing message paired with
whether its length/bytes/flush writes all succeed; an exhausted mailbox
is the bridge end-of-stream). Bytes are naturals.
-/

namespace Tcp

/-- One inbound stream event: either `read_u32` fails (broken
connection), or it yields the declared frame length `len` and
`read_exact` then either fails (`ok = false`) or fills the buffer prefix
with `data` (the frame payload, of length `len`). -/
inductive ReadEv where
  | lenErr
  | frame (len : Nat) (ok : Bool) (data : List Nat)
  deriving DecidableEq, Repr

/-- Terminal status of an interpreted driver run: still inside the loop
(blocked or schedule exhausted), broke out of the loop, or panicked. -/
inductive Outcome where
  | running
  | disconnected
  | panicked
  deriving DecidableEq, Repr

/-- Observable effects of a driver run: frames delivered to the
downstream handler, payloads written to the stream, invocations of the
disconnect notifier (with their argument), and the terminal status. -/
structure RunResult where
  delivered : List (SocketAddr × List Nat)
  writes : List (List Nat)
  disconnects : List SocketAddr
  outcome : Outcome
  deriving DecidableEq, Repr

/-- The driver loop of `GeneralConnection::start`, interpreted over a
schedule. Each iteration consumes one schedule entry choosing the
completing branch (`true` = read; the write branch is disabled while
`localClose`). Read branch: a length error or a payload read error
breaks the loop; a declared length above the 65536-byte buffer is an
out-of-range slice, a panic that skips the disconnect notifier;
otherwise the frame is delivered with the remote address. Write branch:
an exhausted mailbox sets `localClose` and continues; a failed write
breaks the loop; otherwise the payload is written. Breaking out of the
loop invokes the disconnect notifier once with the remote address. -/
def connRun (remote : SocketAddr) :
    List Bool → List ReadEv → List (List Nat × Bool) → Bool → RunResult
  | [], _, _, _ => ⟨[], [], [], .running⟩
  | choice :: sched, inbox, outbox, localClose =>
    if choice || localClose then
      match inbox with
      | [] => ⟨[], [], [], .running⟩
      | .lenErr :: _ => ⟨[], [], [remote], .disconnected⟩
      | .frame len ok data :: inbox1 =>
        if 65536 < len then ⟨[], [], [], .panicked⟩
        else if !ok then ⟨[], [], [remote], .disconnected⟩
        else
          let r := connRun remote sched inbox1 outbox localClose
          { r with delivered := (remote, data) :: r.delivered }
    else
      match outbox with
      | [] => connRun remote sched inbox [] true
      | (message, ok) :: outbox1 =>
        if !ok then ⟨[], [], [remote], .disconnected⟩
        else
          let r := connRun remote sched inbox outbox1 localClose
          { r with writes := message :: r.writes }

/-- The pure read loop: what the driver does when only the read branch is
enabled, given a number of loop iterations and the inbound events. -/
def readLoop (remote : SocketAddr) : Nat → List ReadEv → RunResult
  | 0, _ => ⟨[], [], [], .running⟩
  | _ + 1, [] => ⟨[], [], [], .running⟩
  | _ + 1, .lenErr :: _ => ⟨[], [], [remote], .disconnected⟩
  | n + 1, .frame len ok data :: inbox1 =>
    if 65536 < len then ⟨[], [], [], .panicked⟩
    else if !ok then ⟨[], [], [remote], .disconnected⟩
    else
      let r := readLoop remote n inbox1
      { r with delivered := (remote, data) :: r.delivered }

end Tcp

/-! Supporting lemmas about the association-list map model. -/

theorem Barrier.insertAcc_of_not_mem {M : Type} (acc : List (SocketAddr × M))
    (a : SocketAddr) (m : M) (h : a ∉ acc.map Prod.fst) :
    insertAcc acc a m = (acc ++ [(a, m)], none) := by
  induction acc with
  | nil => rfl
  | cons hd tl ih =>
    obtain ⟨b, m₀⟩ := hd
    simp only [List.map_cons, List.mem_cons, not_or] at h
    have hba : b ≠ a := fun hc => h.1 hc.symm
    simp [insertAcc, hba, ih h.2]

theorem Barrier.insertAcc_snd {M : Type} (acc : List (SocketAddr × M))
    (a : SocketAddr) (m : M) :
    (insertAcc acc a m).2 = lookupAcc acc a := by
  induction acc with
  | nil => rfl
  | cons hd tl ih =>
    obtain ⟨b, m₀⟩ := hd
    by_cases hba : b = a <;> simp [insertAcc, lookupAcc, hba, ih]

theorem Barrier.insertAcc_fst_lookup {M : Type} (acc : List (SocketAddr × M))
    (a : SocketAddr) (m : M) :
    lookupAcc (insertAcc acc a m).1 a = some m := by
  induction acc with
  | nil => simp [insertAcc, lookupAcc]
  | cons hd tl ih =>
    obtain ⟨b, m₀⟩ := hd
    by_cases hba : b = a <;> simp [insertAcc, lookupAcc, hba, ih]

theorem Barrier.lookupAcc_isSome_iff {M : Type} (acc : List (SocketAddr × M))
    (a : SocketAddr) :
    (lookupAcc acc a).isSome = true ↔ a ∈ acc.map Prod.fst := by
  induction acc with
  | nil => simp [lookupAcc]
  | cons hd tl ih =>
    obtain ⟨b, m₀⟩ := hd
    by_cases hba : b = a
    · subst hba; simp [lookupAcc]
    · have : a ≠ b := fun hc => hba hc.symm
      simp [lookupAcc, hba, ih, this]

/-- Claim C3: with the size invariant `accumulated.len() ≤ count`,
`Service::update` fails an assertion exactly when the size already equals
`count` or the contributing address already has a contribution; on every
other input it succeeds and appends the contribution to the accumulation,
so a duplicate is never silently overwritten or ignored. -/
theorem barrier_update_panic_iff {M : Type} (s : Barrier.Service M)
    (a : SocketAddr) (m : M) (hinv : s.accumulated.length ≤ s.count) :
    (((s.update (a, m)).isPanic = true) ↔
      (s.accumulated.length = s.count ∨ a ∈ s.accumulated.map Prod.fst)) ∧
    (a ∉ s.accumulated.map Prod.fst → s.accumulated.length < s.count →
      ∃ eg fin, s.update (a, m) =
        .ok ⟨s.accumulated ++ [(a, m)], s.count⟩ eg fin) := by
  constructor
  · by_cases hlt : s.accumulated.length < s.count
    · by_cases hmem : a ∈ s.accumulated.map Prod.fst
      · have hsome : ((Barrier.insertAcc s.accumulated a m).2).isSome = true := by
          rw [Barrier.insertAcc_snd]
          exact (Barrier.lookupAcc_isSome_iff _ _).mpr hmem
        simp [Barrier.Service.update, hlt, hsome, Barrier.UpdateResult.isPanic, hmem]
      · have hins := Barrier.insertAcc_of_not_mem s.accumulated a m hmem
        have hne : s.accumulated.length ≠ s.count := Nat.ne_of_lt hlt
        by_cases hfull : s.accumulated.length + 1 = s.count <;>
          simp [Barrier.Service.update, hlt, hins, hfull,
            Barrier.UpdateResult.isPanic, hmem, hne]
    · have heq : s.accumulated.length = s.count := Nat.le_antisymm hinv (Nat.le_of_not_lt hlt)
      simp [Barrier.Service.update, hlt, Barrier.UpdateResult.isPanic, heq]
  · intro hmem hlt
    have hins := Barrier.insertAcc_of_not_mem s.accumulated a m hmem
    by_cases hfull : s.accumulated.length + 1 = s.count
    · refine ⟨(s.accumulated ++ [(a, m)]).map
        (fun q => (q.1, Barrier.aggregateOf (s.accumulated ++ [(a, m)]))), true, ?_⟩
      simp [Barrier.Service.update, hlt, hins, hfull]
    · refine ⟨[], false, ?_⟩
      simp [Barrier.Service.update, hlt, hins, hfull]

/-- Witness for C3 at a concrete duplicate contribution. -/
theorem barrier_update_panic_iff_witness :
    ((Barrier.Service.update ⟨[(⟨1, 11⟩, 7)], 2⟩ (⟨1, 11⟩, (9 : Nat))).isPanic = true) :=
  (barrier_update_panic_iff ⟨[(⟨1, 11⟩, 7)], 2⟩ ⟨1, 11⟩ 9 (by decide)).1.mpr
    (Or.inr (by decide))

/-- Claim C10: the duplicate-contribution assertion is not atomic: when
the address already has a contribution (and the size assertion passes),
the map entry has already been replaced by the new message when the
assertion fires, so the state carried by the panic is mutated, not the
original state. -/
theorem barrier_duplicate_mutates_state {M : Type} (s : Barrier.Service M)
    (a : SocketAddr) (m m₀ : M)
    (hlook : Barrier.lookupAcc s.accumulated a = some m₀)
    (hlt : s.accumulated.length < s.count) :
    ∃ s1, s.update (a, m) = .panicked s1 ∧
      Barrier.lookupAcc s1.accumulated a = some m ∧ (m ≠ m₀ → s1 ≠ s) := by
  have hsome : ((Barrier.insertAcc s.accumulated a m).2).isSome = true := by
    rw [Barrier.insertAcc_snd, hlook]; rfl
  refine ⟨{ s with accumulated := (Barrier.insertAcc s.accumulated a m).1 }, ?_, ?_, ?_⟩
  · simp [Barrier.Service.update, hlt, hsome]
  · exact Barrier.insertAcc_fst_lookup _ _ _
  · intro hne hc
    apply hne
    have : Barrier.lookupAcc s.accumulated a = some m := by
      conv_lhs => rw [show s.accumulated =
        (Barrier.insertAcc s.accumulated a m).1 from (congrArg Barrier.Service.accumulated hc).symm]
      exact Barrier.insertAcc_fst_lookup _ _ _
    rw [hlook] at this
    exact (Option.some.injEq _ _ ▸ this).symm ▸ rfl

/-- Witness for C10 at a concrete duplicate contribution. -/
theorem barrier_duplicate_mutates_state_witness :
    ∃ s1, Barrier.Service.update ⟨[(⟨1, 11⟩, 7)], 2⟩ (⟨1, 11⟩, (9 : Nat)) = .panicked s1 ∧
      Barrier.lookupAcc s1.accumulated ⟨1, 11⟩ = some 9 ∧
      ((9 : Nat) ≠ 7 → s1 ≠ ⟨[(⟨1, 11⟩, 7)], 2⟩) :=
  barrier_duplicate_mutates_state ⟨[(⟨1, 11⟩, 7)], 2⟩ ⟨1, 11⟩ 9 7 (by decide) (by decide)

/-- One non-duplicate, pre-quorum step of `Service::update`: the
contribution is appended, and the broadcast fires exactly when the new
size equals the quorum. -/
theorem Barrier.Service.update_step {M : Type} (p : List (SocketAddr × M)) (n : Nat)
    (a : SocketAddr) (m : M) (hmem : a ∉ p.map Prod.fst) (hlt : p.length < n) :
    Barrier.Service.update ⟨p, n⟩ (a, m) =
      if p.length + 1 = n then
        .ok ⟨p ++ [(a, m)], n⟩
          ((p ++ [(a, m)]).map fun q => (q.1, Barrier.aggregateOf (p ++ [(a, m)]))) true
      else .ok ⟨p ++ [(a, m)], n⟩ [] false := by
  have hins := Barrier.insertAcc_of_not_mem p a m hmem
  by_cases hfull : p.length + 1 = n <;>
    simp [Barrier.Service.update, hlt, hins, hfull]

/-- A run of the service from an accumulation `p` over the remaining
distinct contributions `l` that exactly fill the quorum: every call but
the last produces no effects, and the last call egresses the aggregate of
the full accumulation once per accumulated address and invokes the
finished handler. -/
theorem Barrier.runService_go {M : Type} (n : Nat) :
    ∀ l p : List (SocketAddr × M), l ≠ [] →
      ((p ++ l).map Prod.fst).Nodup → (p ++ l).length = n →
      Barrier.runService ⟨p, n⟩ l =
        some (⟨p ++ l, n⟩,
          List.replicate (l.length - 1) ([], false) ++
            [((p ++ l).map fun q => (q.1, Barrier.aggregateOf (p ++ l)), true)]) := by
  intro l
  induction l with
  | nil => intro p h _ _; exact absurd rfl h
  | cons hd tl ih =>
    intro p _ hnd hlen
    obtain ⟨a, m⟩ := hd
    have hnd1 : (p.map Prod.fst ++ a :: tl.map Prod.fst).Nodup := by simpa using hnd
    have hmem : a ∉ p.map Prod.fst := fun hc =>
      (List.nodup_append.mp hnd1).2.2 hc (List.mem_cons_self a _)
    have hlen1 : p.length + (tl.length + 1) = n := by
      simpa [List.length_append] using hlen
    have hlt : p.length < n := by omega
    have hape : (p ++ [(a, m)]) ++ tl = p ++ (a, m) :: tl := by simp
    rw [Barrier.runService, Barrier.Service.update_step p n a m hmem hlt]
    rcases eq_or_ne tl [] with htl | htl
    · subst htl
      have hn1 : p.length + 1 = n := by
        simp only [List.length_nil] at hlen1
        omega
      rw [if_pos hn1]
      simp [Barrier.runService]
    · have htlpos : 0 < tl.length := List.length_pos.mpr htl
      have hn1 : p.length + 1 ≠ n := by omega
      rw [if_neg hn1]
      have ihres := ih (p ++ [(a, m)]) htl
        (by rw [hape]; exact hnd) (by rw [hape]; exact hlen)
      rw [hape] at ihres
      dsimp only
      rw [ihres]
      have hrep : tl.length = (tl.length - 1) + 1 := by omega
      simp only [List.length_cons, Nat.add_sub_cancel]
      conv_rhs => rw [hrep, List.replicate_succ]
      simp

/-- Claim C1: from a fresh service with quorum `n`, feeding `n` distinct
contributions makes the broadcast-and-finish action fire exactly once,
exactly on the last call: every earlier call produces no egress and no
finished invocation, and the last call delivers the identical aggregate
(the accumulated (message, IP) pairs) to the egress handler once per
accumulated participant address and invokes the finished handler once. -/
theorem barrier_broadcast_once_at_quorum {M : Type} (n : Nat)
    (l : List (SocketAddr × M)) (hn : 0 < n) (hlen : l.length = n)
    (hnd : (l.map Prod.fst).Nodup) :
    Barrier.runService (Barrier.Service.new M n) l =
      some (⟨l, n⟩,
        List.replicate (n - 1) ([], false) ++
          [(l.map fun q => (q.1, Barrier.aggregateOf l), true)]) := by
  have hne : l ≠ [] := by
    intro hc; rw [hc] at hlen; simp at hlen; omega
  have := Barrier.runService_go n l [] hne (by simpa using hnd) (by simpa using hlen)
  simpa [Barrier.Service.new, hlen] using this

/-- Witness for C1: quorum 2 with two distinct participants. -/
theorem barrier_broadcast_once_at_quorum_witness :
    Barrier.runService (Barrier.Service.new Nat 2)
        [((⟨1, 11⟩ : SocketAddr), (5 : Nat)), (⟨2, 22⟩, 1)] =
      some (⟨[(⟨1, 11⟩, 5), (⟨2, 22⟩, 1)], 2⟩,
        List.replicate (2 - 1) ([], false) ++
          [(([((⟨1, 11⟩ : SocketAddr), (5 : Nat)), (⟨2, 22⟩, 1)]).map fun q =>
              (q.1, Barrier.aggregateOf [(⟨1, 11⟩, 5), (⟨2, 22⟩, 1)]), true)]) :=
  barrier_broadcast_once_at_quorum 2 [((⟨1, 11⟩ : SocketAddr), (5 : Nat)), (⟨2, 22⟩, 1)]
    (by decide) (by decide) (by decide)

/-- The aggregate delivered at quorum from a fresh run is the input
contributions in arrival order, projected to (message, IP) pairs. -/
theorem Barrier.finalAggregate_eq {M : Type} (n : Nat) (l : List (SocketAddr × M))
    (hn : 0 < n) (hlen : l.length = n) (hnd : (l.map Prod.fst).Nodup) :
    Barrier.finalAggregate n l = some (Barrier.aggregateOf l) := by
  have hne : l ≠ [] := by
    intro hc; rw [hc] at hlen; simp at hlen; omega
  have hrun := Barrier.runService_go n l [] hne (by simpa using hnd)
    (by simpa using hlen)
  simp only [List.nil_append] at hrun
  unfold Barrier.finalAggregate
  simp only [Barrier.Service.new]
  rw [hrun]
  simp only [List.getLast?_concat]
  cases l with
  | nil => exact absurd rfl hne
  | cons hd tl => simp

/-- Claim C2 counterexample: quorum 2, participants contributing 5 and 1;
the two arrival orders are permutations of the same contributions with
distinct addresses, yet the delivered aggregate sequences differ. -/
theorem barrier_aggregate_order_counterexample :
    (([((⟨2, 22⟩ : SocketAddr), (1 : Nat)), (⟨1, 11⟩, 5)]).Perm
        [(⟨1, 11⟩, 5), (⟨2, 22⟩, 1)]) ∧
    (([((⟨1, 11⟩ : SocketAddr), (5 : Nat)), (⟨2, 22⟩, 1)].map Prod.fst).Nodup) ∧
    Barrier.finalAggregate 2 [((⟨1, 11⟩ : SocketAddr), (5 : Nat)), (⟨2, 22⟩, 1)] ≠
      Barrier.finalAggregate 2 [(⟨2, 22⟩, 1), (⟨1, 11⟩, 5)] := by
  refine ⟨List.Perm.swap _ _ _, by decide, by decide⟩

/-- Claim C2 amended: the aggregate delivered at quorum has the same
content regardless of arrival order — for any two permutations of the
same distinct-address contributions, the delivered aggregates are
permutations of each other (equal as multisets); equality as sequences
does not hold, since the service broadcasts in accumulation order without
sorting. -/
theorem barrier_aggregate_perm_invariant {M : Type} (n : Nat)
    (l l1 : List (SocketAddr × M)) (hn : 0 < n) (hlen : l.length = n)
    (hnd : (l.map Prod.fst).Nodup) (hperm : l1.Perm l) :
    ∃ a b, Barrier.finalAggregate n l = some a ∧
      Barrier.finalAggregate n l1 = some b ∧ b.Perm a := by
  have hlen1 : l1.length = n := by rw [hperm.length_eq, hlen]
  have hnd1 : (l1.map Prod.fst).Nodup := ((hperm.map Prod.fst).symm).nodup hnd
  refine ⟨Barrier.aggregateOf l, Barrier.aggregateOf l1,
    Barrier.finalAggregate_eq n l hn hlen hnd,
    Barrier.finalAggregate_eq n l1 hn hlen1 hnd1, ?_⟩
  exact hperm.map fun p => (p.2, p.1.ip)

/-- Witness for the amended C2 at the counterexample's two arrival
orders. -/
theorem barrier_aggregate_perm_invariant_witness :
    ∃ a b, Barrier.finalAggregate 2 [((⟨1, 11⟩ : SocketAddr), (5 : Nat)), (⟨2, 22⟩, 1)] = some a ∧
      Barrier.finalAggregate 2 [(⟨2, 22⟩, 1), (⟨1, 11⟩, 5)] = some b ∧ b.Perm a :=
  barrier_aggregate_perm_invariant 2 [(⟨1, 11⟩, 5), (⟨2, 22⟩, 1)]
    [(⟨2, 22⟩, 1), (⟨1, 11⟩, 5)] (by decide) (by decide) (by decide)
    (List.Perm.swap _ _ _)

/-- Claim C6: the optional-value adapter short-circuits on an absent
value — the inner processor is not invoked (state and invocation count
unchanged, output absent) — and on a present value it invokes the inner
processor exactly once on the payload and wraps its output as present. -/
theorem optionLift_short_circuit {σ M N : Type} (f : σ → M → σ × N) (s : σ) (k : Nat) :
    OptionLift.update (counted f) (s, k) none = ((s, k), none) ∧
    ∀ m : M, OptionLift.update (counted f) (s, k) (some m) =
      (((f s m).1, k + 1), some (f s m).2) :=
  ⟨rfl, fun _ => rfl⟩

/-- Claim C7: each envelope adapter with the identity inner processor is
the identity on the wrapper, and with an arbitrary inner processor it
preserves the carried metadata: the timeout variant tag, the transport
peer address, and the routing destination key (with `ToAll` staying
`ToAll`, reflected by the key being `none` on both sides). -/
theorem lift_metadata_preserved {σ M N K : Type} (f : σ → M → σ × N) (s : σ) :
    (∀ w : Timeout M, TimeoutLift.update idState s w = (s, w)) ∧
    (∀ w : Timeout M, (TimeoutLift.update f s w).2.tag = w.tag) ∧
    (∀ (a : SocketAddr) (m : M), TransportLift.update idState s (a, m) = (s, (a, m))) ∧
    (∀ (a : SocketAddr) (m : M), (TransportLift.update f s (a, m)).2.1 = a) ∧
    (∀ r : Route K M, RouteLift.update idState s r = (s, r)) ∧
    (∀ r : Route K M, (RouteLift.update f s r).2.key = r.key) :=
  ⟨fun w => by cases w <;> rfl,
   fun w => by cases w <;> rfl,
   fun _ _ => rfl,
   fun _ _ => rfl,
   fun r => by cases r <;> rfl,
   fun r => by cases r <;> rfl⟩

/-- Claim C8: the Inspect adapter invokes the wrapped handler exactly
once with a duplicate of the input (the recorded message list grows by
exactly that one message) and returns the original input as output. -/
theorem inspect_forwards_once {σ M : Type} (h : σ → M → σ) (s : σ)
    (log : List M) (m : M) :
    Inspect.update (recording h) (s, log) m = ((h s m, log ++ [m]), m) :=
  rfl

/-! Claims about the framed link driver loop. -/

/-- One unfolding step of the driver loop on a non-empty schedule. -/
theorem Tcp.connRun_cons (remote : SocketAddr) (choice : Bool) (sched : List Bool)
    (inbox : List Tcp.ReadEv) (outbox : List (List Nat × Bool)) (lc : Bool) :
    Tcp.connRun remote (choice :: sched) inbox outbox lc =
      if choice || lc then
        match inbox with
        | [] => ⟨[], [], [], .running⟩
        | .lenErr :: _ => ⟨[], [], [remote], .disconnected⟩
        | .frame len ok data :: inbox1 =>
          if 65536 < len then ⟨[], [], [], .panicked⟩
          else if !ok then ⟨[], [], [remote], .disconnected⟩
          else
            let r := Tcp.connRun remote sched inbox1 outbox lc
            { r with delivered := (remote, data) :: r.delivered }
      else
        match outbox with
        | [] => Tcp.connRun remote sched inbox [] true
        | (message, ok) :: outbox1 =>
          if !ok then ⟨[], [], [remote], .disconnected⟩
          else
            let r := Tcp.connRun remote sched inbox outbox1 lc
            { r with writes := message :: r.writes } :=
  rfl

/-- Claim C4: in every interpreted driver run, the disconnect notifier is
invoked exactly once with the remote peer address when the loop breaks
out on a read or write failure, and is never invoked otherwise — not
while the loop is still running and not when the loop panics. -/
theorem conn_disconnect_exactly_once (remote : SocketAddr) (sched : List Bool)
    (inbox : List Tcp.ReadEv) (outbox : List (List Nat × Bool)) (lc : Bool) :
    (Tcp.connRun remote sched inbox outbox lc).disconnects =
      if (Tcp.connRun remote sched inbox outbox lc).outcome = .disconnected
      then [remote] else [] := by
  induction sched generalizing inbox outbox lc with
  | nil => simp [Tcp.connRun]
  | cons choice sched ih =>
    rw [Tcp.connRun_cons]
    by_cases hc : (choice || lc) = true
    · rw [if_pos hc]
      cases inbox with
      | nil => simp
      | cons ev inbox1 =>
        cases ev with
        | lenErr => simp
        | frame len ok data =>
          by_cases hlen : 65536 < len
          · simp [hlen]
          · cases ok with
            | false => simp [hlen]
            | true => simpa [hlen] using ih inbox1 outbox lc
    · rw [if_neg hc]
      cases outbox with
      | nil => exact ih inbox [] true
      | cons hd outbox1 =>
        obtain ⟨message, ok⟩ := hd
        cases ok with
        | false => simp
        | true => simpa using ih inbox outbox1 lc

/-- From a locally-closing state the driver run coincides with the pure
read loop. -/
theorem Tcp.connRun_localClose (remote : SocketAddr) (sched : List Bool)
    (inbox : List Tcp.ReadEv) (outbox : List (List Nat × Bool)) :
    Tcp.connRun remote sched inbox outbox true =
      Tcp.readLoop remote sched.length inbox := by
  induction sched generalizing inbox outbox with
  | nil => rfl
  | cons choice sched ih =>
    rw [Tcp.connRun_cons]
    simp only [Bool.or_true, if_true, List.length_cons]
    cases inbox with
    | nil => rfl
    | cons ev inbox1 =>
      cases ev with
      | lenErr => rfl
      | frame len ok data =>
        by_cases hlen : 65536 < len
        · simp [Tcp.readLoop, hlen]
        · cases ok with
          | false => simp [Tcp.readLoop, hlen]
          | true => simp [Tcp.readLoop, hlen, ih inbox1 outbox]

/-- The pure read loop performs no writes. -/
theorem Tcp.readLoop_writes (remote : SocketAddr) (n : Nat) (inbox : List Tcp.ReadEv) :
    (Tcp.readLoop remote n inbox).writes = [] := by
  induction n generalizing inbox with
  | zero => rfl
  | succ n ih =>
    cases inbox with
    | nil => rfl
    | cons ev inbox1 =>
      cases ev with
      | lenErr => rfl
      | frame len ok data =>
        by_cases hlen : 65536 < len
        · simp [Tcp.readLoop, hlen]
        · cases ok with
          | false => simp [Tcp.readLoop, hlen]
          | true => simp [Tcp.readLoop, hlen, ih inbox1]

/-- Claim C5: when the mailbox bridge yields end-of-stream the driver
sets the local-close flag and continues, and from a locally-closing state
the run performs no write at all and coincides with the pure read loop,
so inbound frames are still read and delivered downstream. -/
theorem conn_local_close_no_writes (remote : SocketAddr) (sched : List Bool)
    (inbox : List Tcp.ReadEv) (outbox : List (List Nat × Bool)) :
    (Tcp.connRun remote (false :: sched) inbox [] false =
        Tcp.connRun remote sched inbox [] true) ∧
    (Tcp.connRun remote sched inbox outbox true =
        Tcp.readLoop remote sched.length inbox) ∧
    (Tcp.connRun remote sched inbox outbox true).writes = [] :=
  ⟨rfl,
   Tcp.connRun_localClose remote sched inbox outbox,
   by rw [Tcp.connRun_localClose]; exact Tcp.readLoop_writes remote sched.length inbox⟩

/-- Claim C9: a frame whose declared 4-byte length exceeds the fixed
65536-byte read buffer makes the driver panic on the out-of-range buffer
slice: the run ends panicked with no delivery and no disconnect-notifier
invocation, even though the wire format admits any length below 2^32. -/
theorem conn_oversize_frame_panics (remote : SocketAddr) (len : Nat) (ok : Bool)
    (data : List Nat) (sched : List Bool) (inbox : List Tcp.ReadEv)
    (outbox : List (List Nat × Bool))
    (hlen : 65536 < len) (_hwire : len < 2 ^ 32) :
    Tcp.connRun remote (true :: sched)
        (Tcp.ReadEv.frame len ok data :: inbox) outbox false =
      ⟨[], [], [], .panicked⟩ := by
  rw [Tcp.connRun_cons]
  simp [hlen]

/-- Witness for C9 at declared length 65537. -/
theorem conn_oversize_frame_panics_witness :
    Tcp.connRun ⟨1, 11⟩ [true] [Tcp.ReadEv.frame 65537 true []] [] false =
      ⟨[], [], [], .panicked⟩ :=
  conn_oversize_frame_panics ⟨1, 11⟩ 65537 true [] [] [] []
    (by decide) (by decide)
